import Mathlib

/-!
Verification of the Phixeo visual-language core (parser, optimizer, runtime,
editor persistence) against its natural-language specification.

The embedding translates `src/attached_assets/phixeo_parser.py`,
`phixeo_runtime.py` and the `save_phixeo`/`load_phixeo` functions of
`phixeo_editor.py` into Lean.  Python strings are Lean `String`s; the Python
string methods used by the code (`strip`, `split`, `lstrip`, `rstrip`,
substring containment via `in`) are re-implemented over `List Char` by
structural recursion so that every definition evaluates inside the kernel.
Python floats are modelled exactly: by `ℝ` where the analytic layout claims
live, and by `ℚ` in the executable node records (no claim compares float
rounding).  The Python `eval`/`exec` calls on raw text are modelled by an explicit
evaluation oracle, a record of host-supplied functions, over which the
runtime theorems quantify.  The thread pool of the runtime is modelled by
its serialized execution: a submitted task runs to completion at its
submission point (the pool-size-1 serialization of the scheduler).
-/

namespace Phixeo

/-- Node kinds, named as in the source (`Tetrahedral` = Statement,
`Hexagonal` = Loop, `Pentagonal` = Conditional, `Fractal` = Function). -/
inductive NType where
  | Tetrahedral
  | Hexagonal
  | Pentagonal
  | Fractal
deriving DecidableEq, Repr

/-- Python `str.lower()` of the node-type name, used by
`_create_fractal_parent` for the synthetic `group_<kind>` label. -/
def NType.pyLower : NType → String
  | .Tetrahedral => "tetrahedral"
  | .Hexagonal => "hexagonal"
  | .Pentagonal => "pentagonal"
  | .Fractal => "fractal"

/-! ### Python string primitives over `List Char` -/

/-- Whether `nd` is an initial segment of the second list. -/
def leadsWith : List Char → List Char → Bool
  | [], _ => true
  | _ :: _, [] => false
  | a :: as, b :: bs => a == b && leadsWith as bs

/-- Substring test on char lists: Python `needle in hay`. -/
def hasSub (nd : List Char) : List Char → Bool
  | [] => nd.isEmpty
  | c :: rest => leadsWith nd (c :: rest) || hasSub nd rest

/-- Python `needle in hay` on strings. -/
def pyIn (needle hay : String) : Bool :=
  hasSub needle.data hay.data

/-- Python `str.strip()`: drop leading and trailing whitespace. -/
def pyTrim (s : String) : String :=
  String.mk ((((s.data.dropWhile Char.isWhitespace).reverse).dropWhile
    Char.isWhitespace).reverse)

/-- Python `len(line) - len(line.lstrip())`: the number of leading
whitespace characters, used by `_process_connections` as the indent. -/
def indentOf (s : String) : Nat :=
  (s.data.takeWhile Char.isWhitespace).length

/-- Python `str.rstrip(":")`: drop all trailing colon characters. -/
def rstripColon (s : String) : String :=
  String.mk ((s.data.reverse.dropWhile (fun c => c == ':')).reverse)

/-- Worker for `pySplitOn`; the fuel argument makes the recursion
structural (it is always at least the input length plus one, and each
step consumes at least one input character). -/
def splitOnFuel (sep : List Char) : Nat → List Char → List Char → List (List Char)
  | 0, acc, s => [acc.reverse ++ s]
  | _ + 1, acc, [] => [acc.reverse]
  | fuel + 1, acc, c :: rest =>
      if leadsWith sep (c :: rest) then
        acc.reverse :: splitOnFuel sep fuel [] (List.drop (sep.length - 1) rest)
      else
        splitOnFuel sep fuel (c :: acc) rest

/-- Python `s.split(sep)` for a non-empty separator: left-to-right,
non-overlapping, keeping empty pieces.  `s.split(sep)` with no occurrence
of `sep` gives `[s]`. -/
def pySplitOn (sep s : String) : List String :=
  (splitOnFuel sep.data (s.data.length + 1) [] s.data).map String.mk

/-- First whitespace-delimited token of a string: Python `s.split()[0]`,
`none` when Python would raise `IndexError` (no token at all). -/
def pyHeadToken (s : String) : Option String :=
  match s.data.dropWhile Char.isWhitespace with
  | [] => none
  | c :: rest => some (String.mk ((c :: rest).takeWhile (fun d => !d.isWhitespace)))

/-! ### Parser node model (`phixeo_parser.py`)

A parser node is the dict built by `PhixeoParser._create_node` (and, for
aggregates, `_create_fractal_parent`).  `size` and `color` are constants
determined by `ptype` and are omitted from the record; `conns` is `none`
exactly when the dict has no `connections` key (`Tetrahedral` nodes), and
its entries are object references, modelled as indices into the parser
node list.  `subnodes` is `[]` when the key is absent.  The coordinate
type is a parameter: layout claims use `ℝ`, executable claims use `ℚ` or
`Unit` (no parser-logic decision ever reads a coordinate). -/
inductive ParserNode (α : Type) where
  | mk (ptype : NType) (value : String) (pos : α × α)
       (conns : Option (List Nat)) (subnodes : List (ParserNode α))

/-- Node kind accessor. -/
def ParserNode.ptype {α : Type} : ParserNode α → NType
  | .mk t _ _ _ _ => t

/-- Node text accessor. -/
def ParserNode.value {α : Type} : ParserNode α → String
  | .mk _ v _ _ _ => v

/-- Node position accessor. -/
def ParserNode.pos {α : Type} : ParserNode α → α × α
  | .mk _ _ p _ _ => p

/-- Connection-list accessor (`none` = no `connections` key). -/
def ParserNode.conns {α : Type} : ParserNode α → Option (List Nat)
  | .mk _ _ _ c _ => c

/-- Subnode-list accessor (`[]` = no `subnodes` key). -/
def ParserNode.subnodes {α : Type} : ParserNode α → List (ParserNode α)
  | .mk _ _ _ _ s => s

/-- Translation of `PhixeoParser._create_node`: classify one stripped line.  The source
checks, in this order: `"print" in line or "=" in line` (Tetrahedral),
`"for" in line` (Hexagonal), `"if" in line` (Pentagonal), `"def" in line`
(Fractal), otherwise no node.  Only the last three receive a
`connections` key. -/
def createNode {α : Type} (line : String) (p : α × α) : Option (ParserNode α) :=
  if pyIn "print" line || pyIn "=" line then
    some (.mk .Tetrahedral line p none [])
  else if pyIn "for" line then
    some (.mk .Hexagonal line p (some []) [])
  else if pyIn "if" line then
    some (.mk .Pentagonal line p (some []) [])
  else if pyIn "def" line then
    some (.mk .Fractal line p (some []) [])
  else
    none

/-- Node-creation loop of `PhixeoParser.parse`: `n` counts every source
line (blank ones included), the position is computed from `n` before
classification, blank (after `strip`) and unclassified lines produce no
node. -/
def parseGo {α : Type} (layout : Nat → α × α) : Nat → List String → List (ParserNode α)
  | _, [] => []
  | n, l :: ls =>
      let line := pyTrim l
      if line.data.isEmpty then parseGo layout (n + 1) ls
      else
        match createNode line (layout n) with
        | some node => node :: parseGo layout (n + 1) ls
        | none => parseGo layout (n + 1) ls

/-- Translation of `PhixeoParser.parse`, before the connection pass. -/
def parseNodes {α : Type} (layout : Nat → α × α) (lines : List String) : List (ParserNode α) :=
  parseGo layout 0 lines

/-- Backward scan of `_process_connections`: checking line indices
`j - 1, j - 2, ..., 0`, return the first index whose line has indentation
strictly below `d`. -/
def findBack (lines : List String) (d : Nat) : Nat → Option Nat
  | 0 => none
  | j + 1 =>
      if indentOf (lines.getD j "") < d then some j
      else findBack lines d j

/-- Replace the connection list of a node. -/
def ParserNode.withConns {α : Type} : ParserNode α → Option (List Nat) → ParserNode α
  | .mk t v p _ s, c => .mk t v p c s

/-- Translation of `PhixeoParser._process_connections` for the node at
list index `i`: the source computes the indent of `lines[i]` — the line
at the index the node has in `self.nodes`, not the line the node was
created from — and, when positive, appends `self.nodes[j]` for the
nearest `j < i` with `lines[j]` less indented. -/
def processOne {α : Type} (lines : List String) (i : Nat) (node : ParserNode α) : ParserNode α :=
  match node.conns with
  | none => node
  | some cs =>
      let d := indentOf (lines.getD i "")
      if 0 < d then
        match findBack lines d i with
        | some j => node.withConns (some (cs ++ [j]))
        | none => node
      else node

/-- Translation of `PhixeoParser._add_connections_parallel`: run `_process_connections`
on every node that has a `connections` key (each task touches only its
own node, so the thread-pool pass equals this map). -/
def processConnectionsGo {α : Type} (lines : List String) : Nat → List (ParserNode α) → List (ParserNode α)
  | _, [] => []
  | i, n :: ns => processOne lines i n :: processConnectionsGo lines (i + 1) ns

/-- Connection pass over the whole node list. -/
def processConnections {α : Type} (lines : List String) (ns : List (ParserNode α)) : List (ParserNode α) :=
  processConnectionsGo lines 0 ns

/-- Full parse: node creation followed by the connection pass. -/
def parseFull {α : Type} (layout : Nat → α × α) (lines : List String) : List (ParserNode α) :=
  processConnections lines (parseNodes layout lines)

/-! ### Fractal optimizer (`PhixeoParser.optimize`)

The optimizer works on the flat parser node list.  Coordinates are `ℚ`
here (exact stand-in for the float centroid arithmetic; no optimizer
decision reads a coordinate). -/

/-- Translation of `PhixeoParser._nodes_are_similar`: same `type` and same first
whitespace token of `value` (Python `value.split()[0]`; `none = none`
stands for the two `IndexError` cases, which no repository input
reaches since the value of every parsed node is a non-blank stripped line). -/
def nodesAreSimilar {α : Type} (a b : ParserNode α) : Bool :=
  decide (a.ptype = b.ptype) && pyHeadToken a.value == pyHeadToken b.value

/-- Loop body of `PhixeoParser._group_similar_nodes`: `cur` is the
current run (in order), a node extends the run when `cur` is empty or it
is similar to the last element of the run, otherwise the run is emitted and a
new one starts. -/
def groupGo {α : Type} : List (ParserNode α) → List (ParserNode α) → List (List (ParserNode α))
  | cur, [] => match cur with
      | [] => []
      | _ :: _ => [cur]
  | cur, n :: rest =>
      match cur.getLast? with
      | none => groupGo [n] rest
      | some last =>
          if nodesAreSimilar last n then groupGo (cur ++ [n]) rest
          else cur :: groupGo [n] rest

/-- Translation of `PhixeoParser._group_similar_nodes`. -/
def groupSimilarNodes {α : Type} (ns : List (ParserNode α)) : List (List (ParserNode α)) :=
  groupGo [] ns

/-- Centroid coordinate: `sum(n[coord] for n in group) / len(group)`. -/
def centroid (coords : List ℚ) : ℚ :=
  coords.sum / (coords.length : ℚ)

/-- Translation of `PhixeoParser._create_fractal_parent`: a synthetic `Fractal` node at
the centroid of the run labelled `group_<type.lower()>`, with the run as its
`subnodes` and an empty `connections` list. -/
def createFractalParent (g : List (ParserNode ℚ)) : ParserNode ℚ :=
  let t := match g with
    | [] => NType.Fractal
    | n :: _ => n.ptype
  .mk .Fractal ("group_" ++ t.pyLower)
    (centroid (g.map (fun n => n.pos.1)), centroid (g.map (fun n => n.pos.2)))
    (some []) g

/-- Loop body of `PhixeoParser.optimize`: a run of length above one is
replaced by its fractal parent, a singleton run passes through
unchanged.  (An empty run never occurs; its arm mirrors the
`group[0]` access being unreachable.) -/
def optimizeGroups : List (List (ParserNode ℚ)) → List (ParserNode ℚ)
  | [] => []
  | g :: gs =>
      (match g with
       | [] => []
       | [n] => [n]
       | n :: m :: rest => [createFractalParent (n :: m :: rest)]) ++ optimizeGroups gs

/-- Translation of `PhixeoParser.optimize`. -/
def optimize (ns : List (ParserNode ℚ)) : List (ParserNode ℚ) :=
  optimizeGroups (groupSimilarNodes ns)

/-! ### Runtime (`phixeo_runtime.py`)

`PhixeoRuntime._execute_node_parallel` reads the data dict of a node and
dispatches on `type`.  A runtime node carries the object identity (`id`,
modelled as a natural number; the Python `executed` set holds object
identities), the `type`, the `value` text, the `connections` list (object
references, i.e. ids — in the editor data consumed by the runtime these
are the children of the node) and the optional `subnodes` list.  A missing
`connections` key behaves exactly like an empty one at every use site
(`_can_execute` returns `True` either way, no branch reads a
connections of a `Tetrahedral` node), so `conns` is a plain list;
`subs = []` models an absent `subnodes` key (the `Fractal` branch then
runs no subnode either way).

The Python `eval`/`exec` calls on the node text against the shared
`_common_ops` dict are host calls; they are modelled by an `Oracle` of
abstract evaluation functions over abstract value/environment types, and
the runtime theorems quantify over the oracle.  The thread pool is
modelled serially: a submitted task runs inline at its submission point
(the pool-size-1 serialization), so `executor.submit` + `future.result()`
becomes a direct call.  The `attempts` field of the state is a pure
instrumentation: it logs, in order, every entry into
`_execute_node_parallel` so that at-most-once execution is observable. -/

structure RNode where
  id : Nat
  ptype : NType
  value : String
  conns : List Nat
  subs : List Nat
deriving DecidableEq, Repr

/-- Shared mutable runtime state: `self.output`, the `_common_ops`
environment dict, the `executed` identity set, and the entry log. -/
structure RState (E : Type) where
  output : List String
  env : E
  executed : List Nat
  attempts : List Nat

/-- Host evaluation oracle: `evalE` models Python `eval(text, env)`,
`execS` models `exec(text, env)` returning the mutated environment and
the lines printed through the `print` binding, `iter` models `for val in
values` enumeration (with `values = np.arange(...)` for ranges, which
enumerates the same values), `truthy` models Python truthiness, and
`render` models `str(val)` inside the f-string. -/
structure Oracle (V E : Type) where
  evalE : String → E → Except String V
  execS : String → E → Except String (E × List String)
  iter : V → Except String (List V)
  truthy : V → Bool
  render : V → String

/-- Resolve an object reference: the first store node with this id. -/
def lookupStore (store : List RNode) (nid : Nat) : Option RNode :=
  store.find? (fun m => m.id == nid)

/-- Translation of `executed.add(node)`: identity-set insertion. -/
def insertId (nid : Nat) (l : List Nat) : List Nat :=
  if nid ∈ l then l else nid :: l

/-- Message of the Python `ValueError` raised by unpacking
`loop_var, loop_range = value.split(" in ")` when the split does not
have exactly two parts. -/
def unpackMsg (k : Nat) : String :=
  if k < 2 then "not enough values to unpack (expected 2, got " ++ toString k ++ ")"
  else "too many values to unpack (expected 2)"

/-- Translation of `PhixeoRuntime._execute_node_parallel`, serialized.  On entry the
node is logged and added to `executed`; then the `type` dispatch runs:
`Tetrahedral` executes the text, `Hexagonal` splits the text on
`" in "`, evaluates the part after it once, and for each produced value
appends the record `"<text>  # <value>"` and then submits each
not-yet-executed connection (building the per-iteration `locals_dict`,
which the source never passes to anything, is a dead store and has no
state effect); `Pentagonal` evaluates the text with trailing colons
stripped and on truthiness appends the text and submits not-yet-executed
connections; `Fractal` appends the text and submits not-yet-executed
subnodes.  Caught exceptions become output entries.  The fuel argument
only bounds the recursion depth; every run in the file uses enough
fuel. -/
def execNode {V E : Type} (O : Oracle V E) (store : List RNode) :
    Nat → Nat → RState E → RState E
  | 0, _, st => st
  | fuel + 1, nid, st =>
      match lookupStore store nid with
      | none => st
      | some node =>
          let st := { st with executed := insertId nid st.executed,
                              attempts := st.attempts ++ [nid] }
          match node.ptype with
          | .Tetrahedral =>
              match O.execS node.value st.env with
              | .ok (e, outs) => { st with env := e, output := st.output ++ outs }
              | .error e => { st with output := st.output ++ ["Error: " ++ e] }
          | .Hexagonal =>
              match pySplitOn " in " node.value with
              | [_, loopRange] =>
                  match O.evalE loopRange st.env with
                  | .error e =>
                      { st with output := st.output ++ ["Error in loop: " ++ e] }
                  | .ok v =>
                      match O.iter v with
                      | .error e =>
                          { st with output := st.output ++ ["Error in loop: " ++ e] }
                      | .ok vs =>
                          vs.foldl (fun s val =>
                            node.conns.foldl
                              (fun s c => if c ∈ s.executed then s
                                          else execNode O store fuel c s)
                              { s with output :=
                                  s.output ++ [node.value ++ "  # " ++ O.render val] })
                            st
              | parts =>
                  { st with output :=
                      st.output ++ ["Error in loop: " ++ unpackMsg parts.length] }
          | .Pentagonal =>
              match O.evalE (rstripColon node.value) st.env with
              | .error e => { st with output := st.output ++ ["Error in if: " ++ e] }
              | .ok v =>
                  if O.truthy v then
                    node.conns.foldl
                      (fun s c => if c ∈ s.executed then s
                                  else execNode O store fuel c s)
                      { st with output := st.output ++ [node.value] }
                  else st
          | .Fractal =>
              node.subs.foldl
                (fun s c => if c ∈ s.executed then s
                            else execNode O store fuel c s)
                { st with output := st.output ++ [node.value] }

/-- One connection-dispatch pass (the `for conn in ...: if conn not in
executed: submit` loops of the loop, conditional and fractal branches),
serialized.  Definitionally equal to the folds inside `execNode`. -/
def runConns {V E : Type} (O : Oracle V E) (store : List RNode) (fuel : Nat)
    (cs : List Nat) (st : RState E) : RState E :=
  cs.foldl (fun s c => if c ∈ s.executed then s else execNode O store fuel c s) st

/-- The loop-iteration fold of the `Hexagonal` branch: per value, append
the record, then dispatch the connections. -/
def loopIters {V E : Type} (O : Oracle V E) (store : List RNode) (fuel : Nat)
    (conns : List Nat) (text : String) (vs : List V) (st : RState E) : RState E :=
  vs.foldl (fun s val =>
    runConns O store fuel conns
      { s with output := s.output ++ [text ++ "  # " ++ O.render val] }) st

/-- Translation of `PhixeoRuntime._can_execute`: with a `connections` key, every
connection must already be executed; without one (or for an unresolvable
reference, which no run produces) the node is ready. -/
def canExecute (store : List RNode) (nid : Nat) (ex : List Nat) : Bool :=
  match lookupStore store nid with
  | some n => n.conns.all (fun c => ex.contains c)
  | none => true

/-- The scheduling loop of `PhixeoRuntime.execute`, serialized: walk
the distance-sorted node order and run each node that is not yet
executed and whose dependencies are satisfied.  The order list stands
for `sorted_nodes` (sorting is a deterministic tie-break; the theorems
hold for every order). -/
def runAll {V E : Type} (O : Oracle V E) (store : List RNode) (fuel : Nat) :
    List Nat → RState E → RState E
  | [], st => st
  | nid :: rest, st =>
      runAll O store fuel rest
        (if nid ∉ st.executed ∧ canExecute store nid st.executed = true then
          execNode O store fuel nid st
        else st)

/-- Fresh run state over an initial environment (`_common_ops`). -/
def initState {E : Type} (e : E) : RState E :=
  { output := [], env := e, executed := [], attempts := [] }

/-- Return value of `PhixeoRuntime.execute`: the newline-joined output. -/
def executeResult {V E : Type} (O : Oracle V E) (store : List RNode) (fuel : Nat)
    (order : List Nat) (e : E) : String :=
  String.intercalate "\n" (runAll O store fuel order (initState e)).output

/-- The entry bookkeeping of `_execute_node_parallel`: log the entry and
add the node to `executed`. -/
def markSt {E : Type} (nid : Nat) (st : RState E) : RState E :=
  { st with executed := insertId nid st.executed, attempts := st.attempts ++ [nid] }

/-! ### Concrete host values for closed runs

A small value type and oracle instantiating the host `eval`/`exec`
behaviour of Python on the handful of texts appearing in concrete runs:
`range(2)` evaluates to an iterable, `1 < 2` to a true value, any
`if`-prefixed text is a `SyntaxError` for `eval` (Python `eval` accepts
only expressions), and `exec("print(i)")` prints the binding of `i` or
raises a `NameError` when the environment lacks one. -/

inductive TV where
  | nat (n : Nat)
  | list (l : List Nat)
deriving DecidableEq, Repr

/-- Python `str(val)` on toy values. -/
def tvRender : TV → String
  | .nat n => toString n
  | .list _ => "list"

/-- Toy environment: the `_common_ops` dict restricted to the bindings
the concrete runs read. -/
abbrev TEnv := List (String × TV)

/-- The toy host oracle. -/
def toyOracle : Oracle TV TEnv where
  evalE s _env :=
    if s == "range(2)" then .ok (.list [0, 1])
    else if s == "1 < 2" then .ok (.nat 1)
    else if s == "1 < 0" then .ok (.nat 0)
    else .error "invalid syntax"
  execS s env :=
    if s == "print(i)" then
      match env.lookup "i" with
      | some v => .ok (env, [tvRender v])
      | none => .error "name i is not defined"
    else .error "invalid syntax"
  iter v :=
    match v with
    | .list l => .ok (l.map TV.nat)
    | .nat _ => .error "int object is not iterable"
  truthy v :=
    match v with
    | .nat n => !(n == 0)
    | .list l => !l.isEmpty
  render := tvRender

/-- A loop node whose single connection is a print statement. -/
def loopStore : List RNode :=
  [⟨0, .Hexagonal, "i in range(2)", [1], []⟩,
   ⟨1, .Tetrahedral, "print(i)", [], []⟩]

/-- A conditional node (parser-style text, with the `if` prefix and the
colon) whose single connection is a print statement, next to an
editor-style conditional (bare expression text) with a false test. -/
def condStore : List RNode :=
  [⟨0, .Pentagonal, "if 1 < 2:", [1], []⟩,
   ⟨1, .Tetrahedral, "print(i)", [], []⟩,
   ⟨2, .Pentagonal, "1 < 0", [], []⟩]

/-- The property every reachable runtime state keeps: the entry log has
no duplicates and every entered node is in the `executed` set. -/
def ExecInv {E : Type} (st : RState E) : Prop :=
  st.attempts.Nodup ∧ ∀ a ∈ st.attempts, a ∈ st.executed

/-- A malformed loop header next to an ordinary statement sibling. -/
def malformedStore : List RNode :=
  [⟨0, .Hexagonal, "for x range(3):", [], []⟩,
   ⟨1, .Tetrahedral, "print(i)", [], []⟩]

/-! ### Editor persistence (`phixeo_editor.py`, `save_phixeo`/`load_phixeo`)

The canvas item of an editor node carries `{type, value, connections}` plus a
position.  Object references in `connections` are modelled as indices
into `self.nodes`, so Python `self.nodes.index(c)` is the reference
itself.  Positions are `ℚ` stand-ins for the float coordinates. -/

structure EditorNode where
  ptype : NType
  x : ℚ
  y : ℚ
  value : String
  conns : List Nat
deriving DecidableEq, Repr

/-- One record of the `.phix` array:
`{type, x, y, value, connections: [index, ...]}`. -/
structure SaveRec where
  ptype : NType
  x : ℚ
  y : ℚ
  value : String
  conns : List Nat
deriving DecidableEq, Repr

/-- Translation of `save_phixeo`: serialize each node in order, writing each connection
as its index in `self.nodes`. -/
def savePhixeo (ns : List EditorNode) : List SaveRec :=
  ns.map (fun n => ⟨n.ptype, n.x, n.y, n.value, n.conns⟩)

/-- Re-resolve the connection indices of one record against the loaded node
array; a reference outside the array is the Python `IndexError` of
`nodes[conn_idx]`, modelled as `none`. -/
def resolveConns (len : Nat) : List Nat → Option (List Nat)
  | [] => some []
  | c :: cs => if c < len then (resolveConns len cs).map (fun rest => c :: rest) else none

/-- Worker for `loadPhixeo` with the array length fixed. -/
def loadNodes (len : Nat) : List SaveRec → Option (List EditorNode)
  | [] => some []
  | r :: rs =>
      match resolveConns len r.conns, loadNodes len rs with
      | some cs, some rest => some (⟨r.ptype, r.x, r.y, r.value, cs⟩ :: rest)
      | _, _ => none

/-- Translation of `load_phixeo`: phase one rebuilds every node with
`{type, value, connections: []}` at the saved position, phase two appends
`nodes[conn_idx]` for each saved index in order.  The two phases are
fused per node (the phase-one output is determined by the record alone);
`none` is a crash of either phase. -/
def loadPhixeo (recs : List SaveRec) : Option (List EditorNode) :=
  loadNodes recs.length recs

/-! ### Layout engine (`PhixeoParser.parse`, the spiral position)

`theta = n * self.golden_angle`, `r = self.base_a * self.phi ** (n / 2)`,
`x, y = r * cos(theta), r * sin(theta)` with `golden_angle = 2.399`,
`base_a = 50.0`, `phi = (1 + sqrt(5)) / 2`; float arithmetic modelled by
the exact reals. -/

/-- The golden ratio `(1 + sqrt 5) / 2`. -/
noncomputable def phi : ℝ := (1 + Real.sqrt 5) / 2

/-- Golden-angle constant of the source (radians). -/
def goldenAngle : ℝ := 2.399

/-- Base scale constant of the source (pixels). -/
def baseA : ℝ := 50

/-- Spiral radius at line index `n`: `base_a * phi ** (n / 2)`. -/
noncomputable def layoutR (n : Nat) : ℝ := baseA * phi ^ ((n : ℝ) / 2)

/-- Spiral position at line index `n`. -/
noncomputable def layoutPos (n : Nat) : ℝ × ℝ :=
  (layoutR n * Real.cos ((n : ℝ) * goldenAngle),
   layoutR n * Real.sin ((n : ℝ) * goldenAngle))

mutual

/-- Leaf count of one node, counting into `subnodes`: a node with no
subnodes is one leaf, an aggregate counts the leaves of its subnodes. -/
def countLeaves {α : Type} : ParserNode α → Nat
  | .mk _ _ _ _ [] => 1
  | .mk _ _ _ _ (s :: ss) => countLeavesList (s :: ss)

/-- Total leaf count of a node list. -/
def countLeavesList {α : Type} : List (ParserNode α) → Nat
  | [] => 0
  | n :: ns => countLeaves n + countLeavesList ns

end

/-! ## Claim theorems -/

/-- C3, counterexample.  The claim states the dispatch order
for/if/def before print/=, hence that `"if x == 2:"` is classified
`Conditional` (Pentagonal).  The source checks `print`/`=` first, so the
line — which contains `=` — is classified `Statement` (Tetrahedral). -/
theorem classifier_order_counterexample :
    (createNode "if x == 2:" (((), ()) : Unit × Unit)).map ParserNode.ptype =
      some .Tetrahedral ∧
    (createNode "if x == 2:" (((), ()) : Unit × Unit)).map ParserNode.ptype ≠
      some .Pentagonal := by
  constructor <;> decide

/-- C3, amended.  Classification follows the dispatch order of the source:
a line containing `print` or `=` (raw substring containment) yields
`Statement` (Tetrahedral); else a line containing `for` yields `Loop`
(Hexagonal); else one containing `if` yields `Conditional` (Pentagonal);
else one containing `def` yields `Function` (Fractal); else the line is
skipped.  In particular a `for`/`if` line that also contains `=` is
classified `Statement`, not `Loop`/`Conditional`. -/
theorem classifier_dispatch_amended {α : Type} (line : String) (p : α × α) :
    ((pyIn "print" line || pyIn "=" line) = true →
        createNode line p = some (.mk .Tetrahedral line p none [])) ∧
    (pyIn "print" line = false → pyIn "=" line = false → pyIn "for" line = true →
        createNode line p = some (.mk .Hexagonal line p (some []) [])) ∧
    (pyIn "print" line = false → pyIn "=" line = false → pyIn "for" line = false →
        pyIn "if" line = true →
        createNode line p = some (.mk .Pentagonal line p (some []) [])) ∧
    (pyIn "print" line = false → pyIn "=" line = false → pyIn "for" line = false →
        pyIn "if" line = false → pyIn "def" line = true →
        createNode line p = some (.mk .Fractal line p (some []) [])) ∧
    (pyIn "print" line = false → pyIn "=" line = false → pyIn "for" line = false →
        pyIn "if" line = false → pyIn "def" line = false →
        createNode line p = none) := by
  refine ⟨?_, ?_, ?_, ?_, ?_⟩ <;> intros <;> simp_all [createNode]

/-- C3, witness: a plain `for` header is classified `Loop` by the second
dispatch rule. -/
theorem classifier_dispatch_amended_witness :
    createNode "for i in range(3):" (((), ()) : Unit × Unit) =
      some (.mk .Hexagonal "for i in range(3):" ((), ()) (some []) []) :=
  (classifier_dispatch_amended "for i in range(3):" ((), ())).2.1
    (by decide) (by decide) (by decide)

/-- C2: `_process_connections` computes the indentation from
`lines[index]` where `index` is the position of the node in `self.nodes`, not
the line the node came from.  On the input
`["", "    a = 1", "for i in r:"]` the blank first line is skipped, so
the `Loop` node built from the indentation-0 line `"for i in r:"` is
node 1, reads the indentation (4) of line 1 (`"    a = 1"`), scans
backward, and is linked to node 0 — the node of the indentation-4 line —
violating the claimed parent rule (an indentation-0 node must be a root)
and the claimed invariant (the indentation of a parent must be strictly
smaller: here the source line of the parent has indentation 4, that of the child
0). -/
theorem connection_pass_misparents_on_skipped_lines :
    (parseFull (fun _ => ((), ())) ["", "    a = 1", "for i in r:"]).map
        (fun n => (n.value, n.conns)) =
      [("a = 1", none), ("for i in r:", some [0])] ∧
    indentOf "for i in r:" = 0 ∧ indentOf "    a = 1" = 4 := by
  refine ⟨?_, ?_, ?_⟩ <;> decide

/-- Leaf counting distributes over list append. -/
theorem countLeavesList_append {α : Type} (a b : List (ParserNode α)) :
    countLeavesList (a ++ b) = countLeavesList a + countLeavesList b := by
  induction a with
  | nil => simp [countLeavesList]
  | cons n ns ih => simp [countLeavesList, ih, Nat.add_assoc]

/-- The grouping pass only partitions: concatenating the produced runs
restores the input (with the pending run prepended). -/
theorem groupGo_flatten {α : Type} :
    ∀ (rest cur : List (ParserNode α)), (groupGo cur rest).flatten = cur ++ rest := by
  intro rest
  induction rest with
  | nil =>
      intro cur
      cases cur <;> simp [groupGo]
  | cons n rest ih =>
      intro cur
      cases cur with
      | nil =>
          simpa [groupGo] using ih [n]
      | cons c cs =>
          cases hc : (c :: cs).getLast? with
          | none => simp [List.getLast?_eq_none_iff] at hc
          | some last =>
              simp only [groupGo, hc]
              split
              · rw [ih ((c :: cs) ++ [n])]
                simp
              · simp only [List.flatten_cons, ih [n]]
                simp

/-- Replacing each run by its aggregate (or passing a singleton through)
preserves the total leaf count of the run. -/
theorem optimizeGroups_count (G : List (List (ParserNode ℚ))) :
    countLeavesList (optimizeGroups G) = countLeavesList G.flatten := by
  induction G with
  | nil => simp [optimizeGroups, countLeavesList]
  | cons g gs ih =>
      cases g with
      | nil => simpa [optimizeGroups, countLeavesList] using ih
      | cons a as =>
          cases as with
          | nil =>
              simp [optimizeGroups, List.flatten_cons, countLeavesList_append, ih,
                countLeavesList]
          | cons b bs =>
              have hpar : countLeaves (createFractalParent (a :: b :: bs)) =
                  countLeavesList (a :: b :: bs) := rfl
              calc countLeavesList (optimizeGroups ((a :: b :: bs) :: gs))
                  = countLeaves (createFractalParent (a :: b :: bs)) +
                      countLeavesList (optimizeGroups gs) := rfl
                _ = countLeavesList (a :: b :: bs) + countLeavesList gs.flatten := by
                      rw [hpar, ih]
                _ = countLeavesList (((a :: b :: bs) :: gs).flatten) := by
                      rw [List.flatten_cons, countLeavesList_append]

/-- A list of subnode-free nodes has one leaf per node. -/
theorem countLeavesList_of_leaves {α : Type} :
    ∀ (ns : List (ParserNode α)), (∀ n ∈ ns, n.subnodes = []) →
      countLeavesList ns = ns.length := by
  intro ns
  induction ns with
  | nil => intro _; rfl
  | cons n rest ih =>
      intro h
      have hn : n.subnodes = [] := h n (by simp)
      have h1 : countLeaves n = 1 := by
        rcases n with ⟨t, v, p, c, subs⟩
        simp only [ParserNode.subnodes] at hn
        subst hn
        rfl
      simp [countLeavesList, h1, ih (fun m hm => h m (by simp [hm])), Nat.add_comm]

/-- C6: on any node list whose members carry no `subnodes` (parser
output), the fractal-optimizer pass preserves the total leaf count —
the leaves of the optimized forest, counting into aggregates, are
exactly the pre-optimization nodes: the pass re-parents runs of adjacent
similar siblings under a synthetic wrapper and passes singleton runs
through unchanged, discarding nothing. -/
theorem optimize_preserves_leaf_count (ns : List (ParserNode ℚ))
    (h : ∀ n ∈ ns, n.subnodes = []) :
    countLeavesList (optimize ns) = ns.length := by
  have h1 : countLeavesList (optimize ns) = countLeavesList ns := by
    unfold optimize groupSimilarNodes
    rw [optimizeGroups_count, groupGo_flatten]
    simp
  rw [h1, countLeavesList_of_leaves ns h]

/-- C6, witness: two adjacent similar statements and one loop node are
optimized into an aggregate plus a passthrough, with three leaves for
three input nodes. -/
theorem optimize_preserves_leaf_count_witness :
    countLeavesList (optimize
      [.mk .Tetrahedral "a = 1" (0, 0) none [],
       .mk .Tetrahedral "a = 2" (2, 2) none [],
       .mk .Hexagonal "for i in r:" (4, 4) (some []) []]) = 3 :=
  optimize_preserves_leaf_count _ (by intro n hn; fin_cases hn <;> rfl)

/-- Index lists below the bound resolve to themselves. -/
theorem resolveConns_of_bounded (len : Nat) :
    ∀ (l : List Nat), (∀ c ∈ l, c < len) → resolveConns len l = some l := by
  intro l
  induction l with
  | nil => intro _; rfl
  | cons c cs ih =>
      intro h
      have hc : c < len := h c (by simp)
      simp [resolveConns, hc, ih (fun d hd => h d (by simp [hd]))]

/-- Loading the serialization of a node list whose references stay below
the fixed bound restores the list. -/
theorem loadNodes_savePhixeo (len : Nat) :
    ∀ (ns : List EditorNode), (∀ nd ∈ ns, ∀ c ∈ nd.conns, c < len) →
      loadNodes len (savePhixeo ns) = some ns := by
  intro ns
  induction ns with
  | nil => intro _; rfl
  | cons nd rest ih =>
      intro h
      have h1 : resolveConns len nd.conns = some nd.conns :=
        resolveConns_of_bounded len nd.conns (h nd (by simp))
      have h2 : loadNodes len (savePhixeo rest) = some rest :=
        ih (fun m hm => h m (by simp [hm]))
      have h3 : savePhixeo (nd :: rest) =
          ⟨nd.ptype, nd.x, nd.y, nd.value, nd.conns⟩ :: savePhixeo rest := rfl
      rw [h3]
      simp [loadNodes, h1, h2]

/-- C8: serializing a forest to the persistence format (ordered records
`(kind, x, y, text, children-by-index)`) and reloading reconstructs the
forest exactly — same `kind`, `text`, positions and `children` topology —
for every forest whose connection references point into the node array
(always the case for editor-built forests). -/
theorem save_load_roundtrip (ns : List EditorNode)
    (h : ∀ nd ∈ ns, ∀ c ∈ nd.conns, c < ns.length) :
    loadPhixeo (savePhixeo ns) = some ns := by
  unfold loadPhixeo
  have hlen : (savePhixeo ns).length = ns.length := by simp [savePhixeo]
  rw [hlen]
  exact loadNodes_savePhixeo ns.length ns h

/-- C8, witness: a two-node forest (a loop whose child is a statement)
survives the round trip. -/
theorem save_load_roundtrip_witness :
    loadPhixeo (savePhixeo
      [⟨.Hexagonal, 0, 0, "i in range(3)", [1]⟩,
       ⟨.Tetrahedral, 1, 1, "print(i)", []⟩]) =
    some [⟨.Hexagonal, 0, 0, "i in range(3)", [1]⟩,
          ⟨.Tetrahedral, 1, 1, "print(i)", []⟩] :=
  save_load_roundtrip _ (by intro nd hnd; fin_cases hnd <;> decide)

/-- The inserted id is a member. -/
theorem mem_insertId_self (a : Nat) (l : List Nat) : a ∈ insertId a l := by
  unfold insertId
  split <;> simp_all

/-- Insertion keeps existing members. -/
theorem mem_insertId_of_mem (a : Nat) {b : Nat} {l : List Nat} (h : b ∈ l) :
    b ∈ insertId a l := by
  unfold insertId
  split <;> simp [h]

/-- Insertion only grows the set. -/
theorem subset_insertId (a : Nat) (l : List Nat) : l ⊆ insertId a l :=
  fun _ hb => mem_insertId_of_mem a hb

/-- A member of the inserted set is the new id or an old member. -/
theorem mem_of_mem_insertId {a b : Nat} {l : List Nat} (h : b ∈ insertId a l) :
    b = a ∨ b ∈ l := by
  unfold insertId at h
  split at h
  · exact Or.inr h
  · rcases List.mem_cons.mp h with h | h
    · exact Or.inl h
    · exact Or.inr h

/-- Unfolding of the `Hexagonal` branch on a well-formed header and a
successful evaluation: mark the node, then run the iteration fold. -/
theorem execNode_hex_ok {V E : Type} (O : Oracle V E) (store : List RNode)
    (fuel nid : Nat) (node : RNode) (st : RState E) (lv lr : String) (v : V)
    (vs : List V)
    (hstore : lookupStore store nid = some node)
    (htype : node.ptype = .Hexagonal)
    (hsplit : pySplitOn " in " node.value = [lv, lr])
    (heval : O.evalE lr st.env = .ok v)
    (hiter : O.iter v = .ok vs) :
    execNode O store (fuel + 1) nid st =
      loopIters O store fuel node.conns node.value vs (markSt nid st) := by
  rcases node with ⟨i, t, val, conns, subs⟩
  have ht : t = NType.Hexagonal := htype
  subst ht
  simp only [RNode.value] at hsplit
  simp only [execNode, hstore, hsplit, heval, hiter]
  rfl

/-- Unfolding of the `Hexagonal` branch when the header lacks `" in "`
(the split is the whole text): the caught `ValueError` of the unpacking
becomes one output entry and nothing else happens. -/
theorem execNode_hex_unpack1 {V E : Type} (O : Oracle V E) (store : List RNode)
    (fuel nid : Nat) (node : RNode) (st : RState E) (w : String)
    (hstore : lookupStore store nid = some node)
    (htype : node.ptype = .Hexagonal)
    (hsplit : pySplitOn " in " node.value = [w]) :
    execNode O store (fuel + 1) nid st =
      { output := st.output ++
          ["Error in loop: not enough values to unpack (expected 2, got 1)"],
        env := st.env, executed := insertId nid st.executed,
        attempts := st.attempts ++ [nid] } := by
  rcases node with ⟨i, t, val, conns, subs⟩
  have ht : t = NType.Hexagonal := htype
  subst ht
  simp only [RNode.value] at hsplit
  have hmsg : ("Error in loop: " ++ unpackMsg 1 : String) =
      "Error in loop: not enough values to unpack (expected 2, got 1)" := by decide
  simp only [execNode, hstore, hsplit, List.length_cons, List.length_nil,
    Nat.zero_add, hmsg]

/-- Dispatch over connections that are all already executed does
nothing: every submission is guarded by the `executed` check. -/
theorem runConns_all_executed {V E : Type} (O : Oracle V E) (store : List RNode)
    (fuel : Nat) :
    ∀ (cs : List Nat) (st : RState E), (∀ c ∈ cs, c ∈ st.executed) →
      runConns O store fuel cs st = st := by
  intro cs
  induction cs with
  | nil => intro st _; rfl
  | cons c cs ih =>
      intro st h
      have hc : c ∈ st.executed := h c (by simp)
      simp only [runConns, List.foldl_cons, hc, if_pos]
      exact ih st (fun d hd => h d (by simp [hd]))

/-- Loop iterations over connections that are all already executed
contribute exactly one record per produced value, in order, and change
nothing else. -/
theorem loopIters_all_executed {V E : Type} (O : Oracle V E) (store : List RNode)
    (fuel : Nat) (conns : List Nat) (text : String) :
    ∀ (vs : List V) (st : RState E), (∀ c ∈ conns, c ∈ st.executed) →
      loopIters O store fuel conns text vs st =
        { st with output := st.output ++
            vs.map (fun v => text ++ "  # " ++ O.render v) } := by
  intro vs
  induction vs with
  | nil => intro st _; simp [loopIters]
  | cons v vs ih =>
      intro st h
      simp only [loopIters, List.foldl_cons]
      rw [runConns_all_executed O store fuel conns
        { st with output := st.output ++ [text ++ "  # " ++ O.render v] }
        (fun c hc => h c hc)]
      have h2 := ih { st with output := st.output ++ [text ++ "  # " ++ O.render v] }
        (fun c hc => h c hc)
      simp only [loopIters] at h2
      rw [h2]
      simp

/-- Unfolding of the `Pentagonal` branch on an evaluation error. -/
theorem execNode_pent_error {V E : Type} (O : Oracle V E) (store : List RNode)
    (fuel nid : Nat) (node : RNode) (st : RState E) (e : String)
    (hstore : lookupStore store nid = some node)
    (htype : node.ptype = .Pentagonal)
    (heval : O.evalE (rstripColon node.value) st.env = .error e) :
    execNode O store (fuel + 1) nid st =
      { output := st.output ++ ["Error in if: " ++ e], env := st.env,
        executed := insertId nid st.executed,
        attempts := st.attempts ++ [nid] } := by
  rcases node with ⟨i, t, val, conns, subs⟩
  have ht : t = NType.Pentagonal := htype
  subst ht
  simp only [RNode.value] at heval
  simp only [execNode, hstore, heval]

/-- Unfolding of the `Pentagonal` branch on a truthy evaluation. -/
theorem execNode_pent_true {V E : Type} (O : Oracle V E) (store : List RNode)
    (fuel nid : Nat) (node : RNode) (st : RState E) (v : V)
    (hstore : lookupStore store nid = some node)
    (htype : node.ptype = .Pentagonal)
    (heval : O.evalE (rstripColon node.value) st.env = .ok v)
    (htr : O.truthy v = true) :
    execNode O store (fuel + 1) nid st =
      runConns O store fuel node.conns
        { output := st.output ++ [node.value], env := st.env,
          executed := insertId nid st.executed,
          attempts := st.attempts ++ [nid] } := by
  rcases node with ⟨i, t, val, conns, subs⟩
  have ht : t = NType.Pentagonal := htype
  subst ht
  simp only [RNode.value] at heval
  simp only [execNode, hstore, heval, htr, if_pos]
  rfl

/-- Unfolding of the `Pentagonal` branch on a falsy evaluation: the
children are skipped and no output is recorded. -/
theorem execNode_pent_false {V E : Type} (O : Oracle V E) (store : List RNode)
    (fuel nid : Nat) (node : RNode) (st : RState E) (v : V)
    (hstore : lookupStore store nid = some node)
    (htype : node.ptype = .Pentagonal)
    (heval : O.evalE (rstripColon node.value) st.env = .ok v)
    (htr : O.truthy v = false) :
    execNode O store (fuel + 1) nid st = markSt nid st := by
  rcases node with ⟨i, t, val, conns, subs⟩
  have ht : t = NType.Pentagonal := htype
  subst ht
  simp only [RNode.value] at heval
  simp only [execNode, hstore, heval, htr]
  rfl

/-- C1, counterexample.  The loop node `"i in range(2)"` has one child,
`print(i)`.  The host evaluation produces two values, yet the child is
entered exactly once (`attempts = [0, 1]`, one entry for the loop and
one for the child), during the first iteration only — the claimed
"every child runs once per iteration, not merely once per run" fails.
The child output also shows the loop variable was never bound in the
shared environment: `exec("print(i)")` raises `NameError`, because the
source builds its per-iteration `locals_dict` and never passes it to
anything. -/
theorem loop_child_runs_once_counterexample :
    toyOracle.iter (.list [0, 1]) = .ok [.nat 0, .nat 1] ∧
    (execNode toyOracle loopStore 3 0 (initState [])).output =
      ["i in range(2)  # 0", "Error: name i is not defined",
       "i in range(2)  # 1"] ∧
    (execNode toyOracle loopStore 3 0 (initState [])).attempts = [0, 1] := by
  refine ⟨rfl, ?_, ?_⟩ <;> decide

/-- C1, amended.  For a Loop node whose text splits on `" in "` into a
variable part and an expression part, the runtime evaluates the
expression part once against the shared environment and appends, for
each produced value in order, the record `"<text>  # <value>"`; children
are dispatched per iteration only where not yet executed, so each child
runs at most once per run (not once per iteration) — in particular when
every child has already been executed, the loop contributes exactly its
records and leaves the environment, the executed set (beyond the loop
node itself) and the entry log (beyond the loop node) unchanged; the
loop variable is bound only in a discarded per-iteration dictionary,
never in the shared environment. -/
theorem loop_semantics_amended {V E : Type} (O : Oracle V E) (store : List RNode)
    (fuel nid : Nat) (node : RNode) (st : RState E) (lv lr : String) (v : V)
    (vs : List V)
    (hstore : lookupStore store nid = some node)
    (htype : node.ptype = .Hexagonal)
    (hsplit : pySplitOn " in " node.value = [lv, lr])
    (heval : O.evalE lr st.env = .ok v)
    (hiter : O.iter v = .ok vs)
    (hdone : ∀ c ∈ node.conns, c ∈ st.executed) :
    execNode O store (fuel + 1) nid st =
      { output := st.output ++
          vs.map (fun val => node.value ++ "  # " ++ O.render val),
        env := st.env, executed := insertId nid st.executed,
        attempts := st.attempts ++ [nid] } := by
  rw [execNode_hex_ok O store fuel nid node st lv lr v vs hstore htype hsplit
    heval hiter]
  rw [loopIters_all_executed O store fuel node.conns node.value vs (markSt nid st)
    (fun c hc => mem_insertId_of_mem nid (hdone c hc))]
  rfl

/-- C1, witness: a loop over two values whose only child is already
executed appends exactly the two records. -/
theorem loop_semantics_amended_witness :
    execNode toyOracle loopStore 3 0
      { output := [], env := ([] : TEnv), executed := [1], attempts := [] } =
    { output := ["i in range(2)  # 0", "i in range(2)  # 1"],
      env := ([] : TEnv), executed := [0, 1], attempts := [0] } :=
  loop_semantics_amended toyOracle loopStore 2 0
    ⟨0, .Hexagonal, "i in range(2)", [1], []⟩ _ "i" "range(2)" (.list [0, 1])
    [.nat 0, .nat 1] rfl rfl (by decide) rfl rfl (by decide)

/-- C4, counterexample.  The text of the conditional node is
`"if 1 < 2:"`; its expression `1 < 2` evaluates truthy under the very
host oracle, yet the run records `"Error in if: invalid syntax"` and
never enters the child, because the source evaluates the colon-stripped
full text `"if 1 < 2"` — not the expression — and Python `eval` rejects
an `if` statement. -/
theorem conditional_eval_counterexample :
    toyOracle.evalE "1 < 2" [] = .ok (.nat 1) ∧
    toyOracle.truthy (.nat 1) = true ∧
    (execNode toyOracle condStore 3 0 (initState [])).output =
      ["Error in if: invalid syntax"] ∧
    (execNode toyOracle condStore 3 0 (initState [])).attempts = [0] := by
  refine ⟨rfl, rfl, ?_, ?_⟩ <;> decide

/-- C4, amended.  For a Conditional node, execution evaluates the node
text with trailing colons stripped — for text of the form
`"if <expr>:"` this is the string `"if <expr>"`, not `<expr>`, and
Python `eval` then raises, recording `"Error in if: <msg>"` and
skipping the children.  When the evaluation of the colon-stripped text
succeeds (editor-style bare-expression text): if truthy, the full text
is appended to the output and the not-yet-executed children are
dispatched once, in order (so with all children already executed only
the text is appended); if falsy, the children are skipped entirely and
no error is recorded.  The evaluation happens exactly once in every
case. -/
theorem conditional_semantics_amended {V E : Type} (O : Oracle V E)
    (store : List RNode) (fuel nid : Nat) (node : RNode) (st : RState E)
    (hstore : lookupStore store nid = some node)
    (htype : node.ptype = .Pentagonal) :
    (∀ e, O.evalE (rstripColon node.value) st.env = .error e →
        execNode O store (fuel + 1) nid st =
          { output := st.output ++ ["Error in if: " ++ e], env := st.env,
            executed := insertId nid st.executed,
            attempts := st.attempts ++ [nid] }) ∧
    (∀ v, O.evalE (rstripColon node.value) st.env = .ok v →
        O.truthy v = false →
        execNode O store (fuel + 1) nid st =
          { output := st.output, env := st.env,
            executed := insertId nid st.executed,
            attempts := st.attempts ++ [nid] }) ∧
    (∀ v, O.evalE (rstripColon node.value) st.env = .ok v →
        O.truthy v = true → (∀ c ∈ node.conns, c ∈ st.executed) →
        execNode O store (fuel + 1) nid st =
          { output := st.output ++ [node.value], env := st.env,
            executed := insertId nid st.executed,
            attempts := st.attempts ++ [nid] }) := by
  refine ⟨?_, ?_, ?_⟩
  · intro e heval
    exact execNode_pent_error O store fuel nid node st e hstore htype heval
  · intro v heval htr
    rw [execNode_pent_false O store fuel nid node st v hstore htype heval htr]
    rfl
  · intro v heval htr hdone
    rw [execNode_pent_true O store fuel nid node st v hstore htype heval htr]
    exact runConns_all_executed O store fuel node.conns _
      (fun c hc => mem_insertId_of_mem nid (hdone c hc))

/-- C4, witness: an editor-style conditional with a falsy test is
skipped without error. -/
theorem conditional_semantics_amended_witness :
    execNode toyOracle condStore 3 2 (initState ([] : TEnv)) =
      { output := [], env := ([] : TEnv), executed := [2], attempts := [2] } :=
  (conditional_semantics_amended toyOracle condStore 2 2
      ⟨2, .Pentagonal, "1 < 0", [], []⟩ (initState []) rfl rfl).2.1
    (.nat 0) rfl rfl

/-- C7: a Loop node whose text lacks the substring `" in "` (its split
on `" in "` is the whole text) is a localized, non-fatal error: the run
records one error-marker entry, does not execute the children of the node
(the entry log gains only the node itself), marks the node executed
(done), and the scheduling loop continues with the remaining nodes from
exactly that state — the run does not abort. -/
theorem malformed_loop_nonfatal {V E : Type} (O : Oracle V E) (store : List RNode)
    (fuel nid : Nat) (node : RNode) (st : RState E) (rest : List Nat)
    (hstore : lookupStore store nid = some node)
    (htype : node.ptype = .Hexagonal)
    (hsplit : pySplitOn " in " node.value = [node.value])
    (hnew : nid ∉ st.executed)
    (hcan : canExecute store nid st.executed = true) :
    execNode O store (fuel + 1) nid st =
      { output := st.output ++
          ["Error in loop: not enough values to unpack (expected 2, got 1)"],
        env := st.env, executed := insertId nid st.executed,
        attempts := st.attempts ++ [nid] } ∧
    runAll O store (fuel + 1) (nid :: rest) st =
      runAll O store (fuel + 1) rest
        { output := st.output ++
            ["Error in loop: not enough values to unpack (expected 2, got 1)"],
          env := st.env, executed := insertId nid st.executed,
          attempts := st.attempts ++ [nid] } := by
  have h1 := execNode_hex_unpack1 O store fuel nid node st node.value hstore
    htype hsplit
  refine ⟨h1, ?_⟩
  simp only [runAll]
  rw [if_pos (⟨hnew, hcan⟩ : nid ∉ st.executed ∧
    canExecute store nid st.executed = true)]
  rw [h1]

/-- C7, witness: the malformed header `"for x range(3):"` produces the
error entry and its statement sibling still runs afterwards. -/
theorem malformed_loop_nonfatal_witness :
    execNode toyOracle malformedStore 3 0 (initState ([] : TEnv)) =
      { output :=
          ["Error in loop: not enough values to unpack (expected 2, got 1)"],
        env := ([] : TEnv), executed := [0], attempts := [0] } ∧
    runAll toyOracle malformedStore 3 [0, 1] (initState ([] : TEnv)) =
      runAll toyOracle malformedStore 3 [1]
        { output :=
            ["Error in loop: not enough values to unpack (expected 2, got 1)"],
          env := ([] : TEnv), executed := [0], attempts := [0] } :=
  malformed_loop_nonfatal toyOracle malformedStore 2 0
    ⟨0, .Hexagonal, "for x range(3):", [], []⟩ (initState []) [1]
    rfl rfl (by decide) (by decide) rfl

/-- Entering an unexecuted node preserves the at-most-once invariant:
the entry is fresh for the log and lands in the executed set. -/
theorem markSt_inv {E : Type} (nid : Nat) (st : RState E)
    (hnid : nid ∉ st.executed) (h : ExecInv st) : ExecInv (markSt nid st) := by
  constructor
  · have hnotin : nid ∉ st.attempts := fun hmem => hnid (h.2 nid hmem)
    simp [markSt, List.nodup_append, h.1, hnotin]
  · intro a ha
    rcases List.mem_append.mp ha with ha | ha
    · exact mem_insertId_of_mem nid (h.2 a ha)
    · simp at ha
      rw [ha]
      exact mem_insertId_self nid st.executed

/-- Every dispatch site checks the `executed` set before submitting and
every entry adds the node to it, so a full evaluation preserves the
at-most-once invariant (serialized execution). -/
theorem execNode_inv {V E : Type} (O : Oracle V E) (store : List RNode) :
    ∀ fuel nid (st : RState E), nid ∉ st.executed → ExecInv st →
      ExecInv (execNode O store fuel nid st) := by
  intro fuel
  induction fuel with
  | zero => intro nid st _ h; exact h
  | succ fuel ih =>
      have hconns : ∀ (cs : List Nat) (st : RState E), ExecInv st →
          ExecInv (runConns O store fuel cs st) := by
        intro cs
        induction cs with
        | nil => intro st h; exact h
        | cons c cs ihc =>
            intro st h
            simp only [runConns, List.foldl_cons]
            by_cases hc : c ∈ st.executed
            · rw [if_pos hc]
              exact ihc st h
            · rw [if_neg hc]
              exact ihc (execNode O store fuel c st) (ih c st hc h)
      have hiters : ∀ (vs : List V) (conns : List Nat) (text : String)
          (st : RState E), ExecInv st →
          ExecInv (loopIters O store fuel conns text vs st) := by
        intro vs
        induction vs with
        | nil => intro conns text st h; exact h
        | cons v vs ihv =>
            intro conns text st h
            simp only [loopIters, List.foldl_cons]
            have h1 : ExecInv (runConns O store fuel conns
                { st with output := st.output ++ [text ++ "  # " ++ O.render v] }) :=
              hconns conns _ h
            exact ihv conns text _ h1
      intro nid st hnid h
      have hmark : ExecInv (markSt nid st) := markSt_inv nid st hnid h
      cases hlook : lookupStore store nid with
      | none =>
          simp only [execNode, hlook]
          exact h
      | some node =>
          rcases node with ⟨i, t, val, conns, subs⟩
          cases t with
          | Tetrahedral =>
              simp only [execNode, hlook]
              split
              · exact hmark
              · exact hmark
          | Hexagonal =>
              simp only [execNode, hlook]
              split
              · split
                · exact hmark
                · split
                  · exact hmark
                  · exact hiters _ conns val (markSt nid st) hmark
              · exact hmark
          | Pentagonal =>
              simp only [execNode, hlook]
              split
              · exact hmark
              · split
                · exact hconns conns _ hmark
                · exact hmark
          | Fractal =>
              simp only [execNode, hlook]
              exact hconns subs _ hmark

/-- The top-level scheduling loop preserves the invariant: it runs a
node only when the node is not yet executed. -/
theorem runAll_inv {V E : Type} (O : Oracle V E) (store : List RNode) (fuel : Nat) :
    ∀ (order : List Nat) (st : RState E), ExecInv st →
      ExecInv (runAll O store fuel order st) := by
  intro order
  induction order with
  | nil => intro st h; exact h
  | cons nid rest ihr =>
      intro st h
      simp only [runAll]
      by_cases hc : nid ∉ st.executed ∧ canExecute store nid st.executed = true
      · rw [if_pos hc]
        exact ihr _ (execNode_inv O store fuel nid st hc.1 h)
      · rw [if_neg hc]
        exact ihr st h

/-- C10: during one (serialized) run of the execution engine from the
initial state, the evaluation of every node is attempted at most once — the
entry log of the run has no duplicates, because every entry adds the
node to the `executed` set and every dispatch site (top-level
scheduling, loop-body dispatch, conditional-body dispatch, aggregate
subnode dispatch) checks membership in that set before submitting. -/
theorem execution_at_most_once {V E : Type} (O : Oracle V E) (store : List RNode)
    (fuel : Nat) (order : List Nat) (e : E) :
    (runAll O store fuel order (initState e)).attempts.Nodup :=
  (runAll_inv O store fuel order (initState e)
    ⟨List.nodup_nil, fun a ha => absurd ha (List.not_mem_nil a)⟩).1

/-- C9: the layout is the pure function
`position(n) = (r cos(n * golden_angle), r sin(n * golden_angle))` with
`r = base_a * phi ^ (n / 2)`, and the radius is strictly increasing in
the line index `n` (determinism is definitional: `layoutPos` depends on
nothing but `n` and the three constants). -/
theorem layout_spiral_radius_mono (n : Nat) :
    layoutPos n = (layoutR n * Real.cos ((n : ℝ) * goldenAngle),
                   layoutR n * Real.sin ((n : ℝ) * goldenAngle)) ∧
    layoutR n < layoutR (n + 1) := by
  refine ⟨rfl, ?_⟩
  have h5 : (1 : ℝ) < Real.sqrt 5 :=
    (Real.lt_sqrt (by norm_num)).mpr (by norm_num)
  have hphi : (1 : ℝ) < phi := by
    unfold phi; linarith
  have hexp : ((n : ℝ) / 2) < (((n + 1 : Nat) : ℝ) / 2) := by
    push_cast; linarith
  have hpow : phi ^ ((n : ℝ) / 2) < phi ^ (((n + 1 : Nat) : ℝ) / 2) :=
    (Real.rpow_lt_rpow_left_iff hphi).mpr hexp
  unfold layoutR baseA
  linarith

end Phixeo
